import Mathlib

/-!
Verification development for the DwarFS FUSE driver slice:
the filesystem facade operations in `src/dwarfs_main.cpp`, the Nilsimsa
similarity score in `include/dwarfs/nilsimsa.h`, and the Rice block
encoder in `ricepp/include/ricepp/detail/encode.h`.

The C++ sources are embedded shallowly: pure logic becomes Lean
functions, the opaque `filesystem_v2` collaborator becomes explicit
function parameters (`find`, `opendir`, `readv`, ...), and machine
integers become `Nat` with explicit `% 2^w` where overflow matters.
-/

instance {ε α : Type} [DecidableEq ε] [DecidableEq α] : DecidableEq (Except ε α) :=
  fun x y =>
  match x, y with
  | .error a, .error b =>
    if h : a = b then .isTrue (by rw [h])
    else .isFalse (fun hc => by injection hc with h2; exact h h2)
  | .error _, .ok _ => .isFalse (fun hc => Except.noConfusion hc)
  | .ok _, .error _ => .isFalse (fun hc => Except.noConfusion hc)
  | .ok a, .ok b =>
    if h : a = b then .isTrue (by rw [h])
    else .isFalse (fun hc => by injection hc with h2; exact h h2)

namespace DwarfsSpec

/-! ## Errno and flag constants (POSIX / Linux values used by the driver) -/

def ENOENT : Nat := 2
def EIO : Nat := 5
def EACCES : Nat := 13
def ENOTDIR : Nat := 20
def EISDIR : Nat := 21
def ERANGE : Nat := 34
def ENODATA : Nat := 61
def ENOATTR : Nat := 93

def O_RDONLY : Nat := 0
def O_WRONLY : Nat := 1
def O_RDWR : Nat := 2
/-- `O_ACCMODE = O_RDONLY | O_WRONLY | O_RDWR` (dwarfs_main.cpp line 572). -/
def O_ACCMODE : Nat := O_RDONLY ||| O_WRONLY ||| O_RDWR
def O_TRUNC : Nat := 512
def O_APPEND : Nat := 1024

/-- The FUSE root inode id (`FUSE_ROOT_ID`). -/
def FUSE_ROOT_ID : Nat := 1

/-! ## Facade data model

`inode_view` is what `filesystem_v2::find` returns: an entry with an
inode number and a type query (`is_directory`). -/

structure inode_view where
  inode_num : Nat
  is_directory : Bool
deriving DecidableEq, Repr

/-! ## `op_open_common` (dwarfs_main.cpp lines 575-600)

The function receives the result of the `find` callback and the open
flags from `fuse_file_info`; on success it stores the inode number in
`fi->fh` and sets the cache hints from `opts.cache_files`. -/

structure open_out where
  fh : Nat
  direct_io : Bool
  keep_cache : Bool
deriving DecidableEq, Repr

def op_open_common (entry : Option inode_view) (cache_files : Bool)
    (flags : Nat) : Except Nat open_out :=
  match entry with
  | none => .error ENOENT
  | some e =>
    if e.is_directory then .error EISDIR
    else if flags &&& O_ACCMODE ≠ O_RDONLY ∨ flags &&& (O_APPEND ||| O_TRUNC) ≠ 0 then
      .error EACCES
    else
      .ok { fh := e.inode_num, direct_io := !cache_files, keep_cache := cache_files }

/-- C1. Name/inode does not resolve ⟹ `ENOENT`; resolved directory ⟹
`EISDIR`; flags requesting anything other than read-only access
(access mode ≠ `O_RDONLY`, or `O_APPEND`/`O_TRUNC` set) ⟹ `EACCES`;
otherwise open succeeds and the file handle is the entry's inode
number. -/
theorem c1_open_errors (entry : Option inode_view) (cache_files : Bool) (flags : Nat) :
    (entry = none → op_open_common entry cache_files flags = .error ENOENT) ∧
    (∀ e, entry = some e → e.is_directory = true →
      op_open_common entry cache_files flags = .error EISDIR) ∧
    (∀ e, entry = some e → e.is_directory = false →
      (flags &&& O_ACCMODE ≠ O_RDONLY ∨ flags &&& (O_APPEND ||| O_TRUNC) ≠ 0) →
      op_open_common entry cache_files flags = .error EACCES) ∧
    (∀ e, entry = some e → e.is_directory = false →
      flags &&& O_ACCMODE = O_RDONLY → flags &&& (O_APPEND ||| O_TRUNC) = 0 →
      ∃ out, op_open_common entry cache_files flags = .ok out ∧ out.fh = e.inode_num) := by
  refine ⟨?_, ?_, ?_, ?_⟩
  · rintro rfl; rfl
  · rintro e rfl hdir
    simp [op_open_common, hdir]
  · rintro e rfl hdir hflags
    simp [op_open_common, hdir, hflags]
  · rintro e rfl hdir hacc happ
    refine ⟨{ fh := e.inode_num, direct_io := !cache_files, keep_cache := cache_files }, ?_, rfl⟩
    simp [op_open_common, hdir, hacc, happ]

/-- C1 witness: a concrete regular file opened read-only succeeds with
the inode number as handle, and a write-flagged open is denied. -/
theorem c1_open_errors_witness :
    (∃ out, op_open_common (some ⟨42, false⟩) true 0 = .ok out ∧ out.fh = 42) ∧
    op_open_common (some ⟨42, false⟩) true 1 = .error EACCES := by
  constructor
  · exact (c1_open_errors (some ⟨42, false⟩) true 0).2.2.2 ⟨42, false⟩ rfl rfl (by decide) (by decide)
  · exact (c1_open_errors (some ⟨42, false⟩) true 1).2.2.1 ⟨42, false⟩ rfl rfl (by decide)

/-! ## `op_readdir_common` (dwarfs_main.cpp lines 754-797)

The filesystem's directory interface: `opendir` yields a handle over
the ordered directory-entry range, `dirsize` is its length, and
`readdir(dir, off)` returns the entry at position `off`.  A directory
handle is embedded as the ordered entry list; `readdir` is positional
indexing.  The reply policy (`keep_going` / `add_entry`) is kept
polymorphic in an accumulator state, as in the source. -/

structure dir_fs where
  find : Nat → Option inode_view
  opendir : inode_view → Option (List (inode_view × String))

/-- The `while (off < lastoff && policy.keep_going())` loop of
`op_readdir_common`: look up the entry at `off`, hand it to the
policy, stop when the policy declines, else advance.  `fuel` bounds
the iteration count (the source loop runs at most `lastoff - off`
times). -/
def readdir_loop {σ : Type} (dir : List (inode_view × String)) (lastoff : Nat)
    (keep_going : σ → Bool)
    (add_entry : σ → inode_view × String → Nat → Option σ) :
    Nat → σ → Nat → σ
  | _, s, 0 => s
  | off, s, fuel + 1 =>
    if off < lastoff ∧ keep_going s then
      match dir[off]? with
      | none => s
      | some e =>
        match add_entry s e off with
        | none => s
        | some s2 => readdir_loop dir lastoff keep_going add_entry (off + 1) s2 fuel
    else s

def op_readdir_common {σ : Type} (fs : dir_fs) (ino : Nat) (off : Nat)
    (init : σ) (keep_going : σ → Bool)
    (add_entry : σ → inode_view × String → Nat → Option σ) : Except Nat σ :=
  match fs.find ino with
  | none => .error ENOENT
  | some dirent =>
    match fs.opendir dirent with
    | none => .error ENOTDIR
    | some dir =>
      .ok (readdir_loop dir dir.length keep_going add_entry off init (dir.length - off))

/-- The always-accepting reply policy: collect every offered entry. -/
def op_readdir_collect (fs : dir_fs) (ino : Nat) (off : Nat) :
    Except Nat (List (inode_view × String)) :=
  op_readdir_common fs ino off [] (fun _ => true) (fun acc e _ => some (acc ++ [e]))

theorem readdir_loop_collect (dir : List (inode_view × String)) :
    ∀ (fuel off : Nat) (acc : List (inode_view × String)),
      dir.length - off ≤ fuel →
      readdir_loop dir dir.length (fun _ => true)
        (fun acc e _ => some (acc ++ [e])) off acc fuel =
      acc ++ dir.drop off := by
  intro fuel
  induction fuel with
  | zero =>
    intro off acc hle
    have h : dir.length ≤ off := by omega
    rw [List.drop_eq_nil_of_le h, List.append_nil]
    rfl
  | succ fuel ih =>
    intro off acc hle
    unfold readdir_loop
    by_cases hlt : off < dir.length
    · have hget : dir[off]? = some dir[off] := List.getElem?_eq_getElem hlt
      simp only [hlt, true_and, if_pos, hget]
      rw [ih (off + 1) (acc ++ [dir[off]]) (by omega)]
      rw [List.append_assoc, List.singleton_append]
      congr 1
      exact (List.drop_eq_getElem_cons hlt).symm
    · have h : dir.length ≤ off := by omega
      rw [List.drop_eq_nil_of_le h, List.append_nil]
      simp [hlt]

/-- C2. Iterating `readdir` from `off ≤ dirsize` with an accepting
reply policy yields exactly the directory's entries at positions
`off, off+1, ..., dirsize-1`, each once, in image-defined order
(`dir.drop off`); a non-existent inode yields `ENOENT` and a
non-directory inode yields `ENOTDIR`. -/
theorem c2_readdir_complete (fs : dir_fs) (ino : Nat) (off : Nat) :
    (fs.find ino = none → op_readdir_collect fs ino off = .error ENOENT) ∧
    (∀ e, fs.find ino = some e → fs.opendir e = none →
      op_readdir_collect fs ino off = .error ENOTDIR) ∧
    (∀ e dir, fs.find ino = some e → fs.opendir e = some dir → off ≤ dir.length →
      op_readdir_collect fs ino off = .ok (dir.drop off)) := by
  refine ⟨?_, ?_, ?_⟩
  · intro h
    simp [op_readdir_collect, op_readdir_common, h]
  · intro e hfind hdir
    simp [op_readdir_collect, op_readdir_common, hfind, hdir]
  · intro e dir hfind hdir hoff
    simp only [op_readdir_collect, op_readdir_common, hfind, hdir]
    rw [readdir_loop_collect dir (dir.length - off) off [] (le_refl _)]
    rfl

/-- C2 witness: a two-entry directory read from offset 1 yields exactly
the second entry; a missing inode yields `ENOENT`; a file inode (whose
`opendir` fails) yields `ENOTDIR`. -/
theorem c2_readdir_complete_witness :
    (op_readdir_collect
      { find := fun i => if i = 1 then some ⟨1, true⟩ else none,
        opendir := fun e => if e.inode_num = 1 then some [(⟨2, false⟩, "a"), (⟨3, false⟩, "b")] else none }
      1 1 = .ok [(⟨3, false⟩, "b")]) ∧
    (op_readdir_collect
      { find := fun i => if i = 1 then some ⟨1, true⟩ else none,
        opendir := fun e => if e.inode_num = 1 then some [(⟨2, false⟩, "a"), (⟨3, false⟩, "b")] else none }
      7 0 = .error ENOENT) ∧
    (op_readdir_collect
      { find := fun i => if i = 2 then some ⟨2, false⟩ else none,
        opendir := fun _ => none }
      2 0 = .error ENOTDIR) := by
  refine ⟨?_, ?_, ?_⟩
  · exact (c2_readdir_complete _ 1 1).2.2 ⟨1, true⟩ [(⟨2, false⟩, "a"), (⟨3, false⟩, "b")]
      (by simp) (by simp) (by simp)
  · exact (c2_readdir_complete _ 7 0).1 (by simp)
  · exact (c2_readdir_complete _ 2 0).2.1 ⟨2, false⟩ (by simp) rfl

/-! ## Extended attributes (dwarfs_main.cpp lines 890-1029)

The driver synthesizes three attributes (lines 257-259).  The
environment bundles the process state the handlers read: the platform
(`apple` selects `ENOATTR` over `ENODATA`), whether perfmon support
was compiled in (`DWARFS_PERFMON_ENABLED`), the running performance
monitor and its summary text, the pid string, and the metadata
lookups. -/

def pid_xattr : String := "user.dwarfs.driver.pid"
def perfmon_xattr : String := "user.dwarfs.driver.perfmon"
def inodeinfo_xattr : String := "user.dwarfs.inodeinfo"

structure xattr_env where
  apple : Bool
  perfmon_compiled : Bool
  perfmon : Option String
  pid_str : String
  find : Nat → Option inode_view
  inode_info : inode_view → String

/-- Linux and macOS disagree on the errno for "attribute not found"
(dwarfs_main.cpp lines 953-958). -/
def attr_notfound_errno (apple : Bool) : Nat := if apple then ENOATTR else ENODATA

inductive xattr_reply where
  | xattr_size (n : Nat)
  | buf (s : String)
deriving DecidableEq, Repr

/-- The root-inode branch of `op_getxattr`'s value accumulation (lines
913-929): the `oss` contents and `extra_size` after the
`ino == FUSE_ROOT_ID` block. -/
def getxattr_root_part (env : xattr_env) (ino : Nat) (name : String) : String × Nat :=
  if ino = FUSE_ROOT_ID then
    if name = pid_xattr then (env.pid_str, 0)
    else if name = perfmon_xattr then
      if env.perfmon_compiled then
        match env.perfmon with
        | some summary => (summary, 4096)
        | none => ("performance monitor is disabled\n", 0)
      else ("no performance monitor support\n", 0)
    else ("", 0)
  else ("", 0)

/-- The value/`extra_size` accumulation of `op_getxattr` (lines
909-940): the `oss` stream contents and the extra headroom, or
`ENOENT` for an `inodeinfo` request on an inode that does not
resolve. -/
def getxattr_value (env : xattr_env) (ino : Nat) (name : String) :
    Except Nat (String × Nat) :=
  let root_part := getxattr_root_part env ino name
  if name = inodeinfo_xattr then
    match env.find ino with
    | some e => .ok (root_part.1 ++ env.inode_info e ++ "\n", root_part.2)
    | none => .error ENOENT
  else .ok root_part

/-- The `extra_size` headroom is non-zero only for the active perfmon
summary on the root inode, where it is 4096. -/
theorem getxattr_root_part_extra (env : xattr_env) (ino : Nat) (name : String) :
    (getxattr_root_part env ino name).2 = 0 ∨
    (ino = FUSE_ROOT_ID ∧ name = perfmon_xattr ∧ env.perfmon_compiled = true ∧
      env.perfmon = some (getxattr_root_part env ino name).1 ∧
      (getxattr_root_part env ino name).2 = 4096) := by
  have hne : perfmon_xattr ≠ pid_xattr := by decide
  unfold getxattr_root_part
  by_cases hroot : ino = FUSE_ROOT_ID
  · by_cases hpid : name = pid_xattr
    · left; simp [hroot, hpid]
    · by_cases hperf : name = perfmon_xattr
      · by_cases hcomp : env.perfmon_compiled = true
        · rcases hpm : env.perfmon with _ | s
          · left; simp [hroot, hpid, hperf, hcomp, hpm, hne]
          · right
            refine ⟨hroot, hperf, hcomp, ?_, ?_⟩ <;>
              simp [hroot, hpid, hperf, hcomp, hpm, hne]
        · left; simp [hroot, hpid, hperf, hcomp, hne]
      · left; simp [hroot, hpid, hperf]
  · left; simp [hroot]

/-- `op_getxattr` reply logic (lines 949-972). -/
def op_getxattr (env : xattr_env) (ino : Nat) (name : String) (size : Nat) :
    Except Nat xattr_reply :=
  match getxattr_value env ino name with
  | .error e => .error e
  | .ok (value, extra_size) =>
    if value = "" then .error (attr_notfound_errno env.apple)
    else if size = 0 then .ok (.xattr_size (value.length + extra_size))
    else if value.length ≤ size then .ok (.buf value)
    else .error ERANGE

/-- The attributes the spec calls "synthesized for that inode": pid and
perfmon on the root inode, inodeinfo on any existing inode. -/
def synthesized_attr (env : xattr_env) (ino : Nat) (name : String) : Prop :=
  (ino = FUSE_ROOT_ID ∧ (name = pid_xattr ∨ name = perfmon_xattr)) ∨
  (name = inodeinfo_xattr ∧ env.find ino ≠ none)

/-- A concrete environment falsifying C3 as stated. -/
def c3_env : xattr_env :=
  { apple := false, perfmon_compiled := true, perfmon := some "SUMMARY\n",
    pid_str := "1234", find := fun _ => none, inode_info := fun _ => "{}" }

/-- C3 counterexample.  Two deviations from the claim at explicit
inputs: (1) `getxattr(2, inodeinfo)` with no inode 2 is not a
synthesized attribute for inode 2, yet the driver returns `ENOENT`,
not the attribute-not-found errno `ENODATA`; (2) with the performance
monitor active, a size-0 `getxattr(root, perfmon)` reports the value
size plus 4096 headroom, not the value's size (8). -/
theorem c3_counterexample :
    (¬ synthesized_attr c3_env 2 inodeinfo_xattr ∧
      op_getxattr c3_env 2 inodeinfo_xattr 0 = .error ENOENT ∧
      ENOENT ≠ attr_notfound_errno c3_env.apple) ∧
    (synthesized_attr c3_env FUSE_ROOT_ID perfmon_xattr ∧
      op_getxattr c3_env FUSE_ROOT_ID perfmon_xattr 0 = .ok (.xattr_size (8 + 4096)) ∧
      (8 + 4096 : Nat) ≠ 8) := by
  refine ⟨⟨?_, by decide, by decide⟩, ⟨?_, by decide, by decide⟩⟩
  · rintro (⟨h, _⟩ | ⟨_, h⟩)
    · exact absurd h (by decide)
    · exact h rfl
  · exact .inl ⟨rfl, .inr rfl⟩

/-- C3 as amended.  A getxattr whose name is not synthesized for the
inode — and is not an `inodeinfo` request on a non-existent inode,
which yields `ENOENT` — returns the platform's attribute-not-found
errno; when the synthesized value is non-empty and size 0 is passed,
the reply carries the value size plus the extra headroom (4096 exactly
for the active perfmon summary, 0 otherwise); and a non-zero size
smaller than the value size yields `ERANGE`. -/
theorem c3_getxattr_amended (env : xattr_env) (ino : Nat) (name : String) (size : Nat) :
    (¬ synthesized_attr env ino name →
      ¬ (name = inodeinfo_xattr ∧ env.find ino = none) →
      op_getxattr env ino name size = .error (attr_notfound_errno env.apple)) ∧
    (∀ value extra, getxattr_value env ino name = .ok (value, extra) → value ≠ "" →
      (size = 0 → op_getxattr env ino name size = .ok (.xattr_size (value.length + extra))) ∧
      (0 < size → size < value.length → op_getxattr env ino name size = .error ERANGE)) ∧
    (∀ value extra, getxattr_value env ino name = .ok (value, extra) → extra ≠ 0 →
      ino = FUSE_ROOT_ID ∧ name = perfmon_xattr ∧ env.perfmon_compiled = true ∧
        env.perfmon = some value ∧ extra = 4096) := by
  refine ⟨?_, ?_, ?_⟩
  · intro hsyn hnoinfo
    have hnotinfo : name ≠ inodeinfo_xattr := by
      intro hinfo
      rcases h : env.find ino with _ | e
      · exact hnoinfo ⟨hinfo, h⟩
      · exact hsyn (.inr ⟨hinfo, by rw [h]; exact fun hc => Option.noConfusion hc⟩)
    have hrp : getxattr_root_part env ino name = ("", 0) := by
      unfold getxattr_root_part
      by_cases hroot : ino = FUSE_ROOT_ID
      · have hpid : name ≠ pid_xattr := fun h => hsyn (.inl ⟨hroot, .inl h⟩)
        have hperf : name ≠ perfmon_xattr := fun h => hsyn (.inl ⟨hroot, .inr h⟩)
        simp [hroot, hpid, hperf]
      · simp [hroot]
    have hval : getxattr_value env ino name = .ok ("", 0) := by
      unfold getxattr_value
      simp [hnotinfo, hrp]
    simp [op_getxattr, hval]
  · intro value extra hval hne
    constructor
    · intro hsz
      simp [op_getxattr, hval, hne, hsz]
    · intro hpos hlt
      have hsz : size ≠ 0 := by omega
      have hge : ¬ value.length ≤ size := by omega
      simp [op_getxattr, hval, hne, hsz, hge]
  · intro value extra hval hextra
    unfold getxattr_value at hval
    by_cases hinfo : name = inodeinfo_xattr
    · rw [if_pos hinfo] at hval
      rcases h : env.find ino with _ | e <;> rw [h] at hval
      · exact absurd hval (by simp)
      · have hpair := (Except.ok.injEq _ _).mp hval
        have h2 := congrArg Prod.snd hpair
        simp only [] at h2
        rcases getxattr_root_part_extra env ino name with h0 | ⟨_, hperf, _⟩
        · rw [h2] at h0
          exact absurd h0 hextra
        · rw [hinfo] at hperf
          exact absurd hperf (by decide)
    · rw [if_neg hinfo] at hval
      have hpair := (Except.ok.injEq _ _).mp hval
      have h1 := congrArg Prod.fst hpair
      have h2 := congrArg Prod.snd hpair
      simp only [] at h1 h2
      rcases getxattr_root_part_extra env ino name with h0 | ⟨ha, hb, hc, hd, he⟩
      · rw [h2] at h0
        exact absurd h0 hextra
      · exact ⟨ha, hb, hc, by rw [hd, h1], by rw [← h2]; exact he⟩

/-- C3 witness: in a concrete environment the amended behaviors hold:
an unknown name yields `ENODATA`, a size-0 `inodeinfo` request
reports the value size (3 = "{}\n"), and an undersized buffer yields
`ERANGE`. -/
theorem c3_getxattr_amended_witness :
    (op_getxattr
      { apple := false, perfmon_compiled := true, perfmon := none, pid_str := "1234",
        find := fun i => if i = 2 then some ⟨2, false⟩ else none,
        inode_info := fun _ => "{}" } 2 "user.foo" 0 = .error (attr_notfound_errno false)) ∧
    (op_getxattr
      { apple := false, perfmon_compiled := true, perfmon := none, pid_str := "1234",
        find := fun i => if i = 2 then some ⟨2, false⟩ else none,
        inode_info := fun _ => "{}" } 2 inodeinfo_xattr 0 = .ok (.xattr_size 3)) ∧
    (op_getxattr
      { apple := false, perfmon_compiled := true, perfmon := none, pid_str := "1234",
        find := fun i => if i = 2 then some ⟨2, false⟩ else none,
        inode_info := fun _ => "{}" } 2 inodeinfo_xattr 1 = .error ERANGE) := by
  refine ⟨?_, ?_, ?_⟩
  · exact (c3_getxattr_amended _ 2 "user.foo" 0).1
      (by rintro (⟨h, _⟩ | ⟨h, _⟩) <;> revert h <;> decide)
      (by rintro ⟨h, _⟩; revert h; decide)
  · exact ((c3_getxattr_amended _ 2 inodeinfo_xattr 0).2.1 "{}\n" 0 (by decide) (by decide)).1 rfl
  · exact ((c3_getxattr_amended _ 2 inodeinfo_xattr 1).2.1 "{}\n" 0 (by decide) (by decide)).2
      (by decide) (by decide)

/-! ## `op_listxattr` (dwarfs_main.cpp lines 988-1029) -/

/-- The null-separated attribute-name list `op_listxattr` builds
(lines 999-1006).  Note: the source appends `perfmon_xattr`
unconditionally on the root inode — there is no perfmon check. -/
def listxattr_names (ino : Nat) : String :=
  (if ino = FUSE_ROOT_ID then
    pid_xattr ++ "\x00" ++ perfmon_xattr ++ "\x00"
  else "") ++ inodeinfo_xattr ++ "\x00"

/-- `op_listxattr` reply logic (lines 1017-1027). -/
def op_listxattr (ino : Nat) (size : Nat) : Except Nat xattr_reply :=
  let xattrs := listxattr_names ino
  if size = 0 then .ok (.xattr_size xattrs.length)
  else if xattrs.length ≤ size then .ok (.buf xattrs)
  else .error ERANGE

/-- The name list as the spec's words describe it: the perfmon
attribute listed on the root inode only when perfmon is enabled. -/
def listxattr_names_claimed (perfmon_enabled : Bool) (ino : Nat) : String :=
  (if ino = FUSE_ROOT_ID then
    pid_xattr ++ "\x00" ++ (if perfmon_enabled then perfmon_xattr ++ "\x00" else "")
  else "") ++ inodeinfo_xattr ++ "\x00"

/-- C4 counterexample: with perfmon disabled, the claim predicts a root
name list without the perfmon attribute, but the driver's list (which
consults no perfmon state at all) always contains it. -/
theorem c4_counterexample :
    listxattr_names FUSE_ROOT_ID ≠ listxattr_names_claimed false FUSE_ROOT_ID ∧
    listxattr_names FUSE_ROOT_ID = listxattr_names_claimed true FUSE_ROOT_ID ∧
    op_listxattr FUSE_ROOT_ID 0 = .ok (.xattr_size 72) ∧
    (listxattr_names_claimed false FUSE_ROOT_ID).length = 45 := by
  refine ⟨by decide, by decide, by decide, by decide⟩

/-- C4 as amended: on the root inode the list is the pid attribute, the
perfmon attribute (always, whether or not perfmon is enabled), then
the inodeinfo attribute, null-separated; on every other inode exactly
the inodeinfo attribute; size 0 reports the total byte count of the
list; a non-zero size smaller than the list yields `ERANGE`, and a
sufficient size returns the list itself. -/
theorem c4_listxattr_amended (ino : Nat) (size : Nat) :
    (ino = FUSE_ROOT_ID →
      listxattr_names ino =
        pid_xattr ++ "\x00" ++ perfmon_xattr ++ "\x00" ++ inodeinfo_xattr ++ "\x00") ∧
    (ino ≠ FUSE_ROOT_ID → listxattr_names ino = inodeinfo_xattr ++ "\x00") ∧
    (size = 0 → op_listxattr ino size = .ok (.xattr_size (listxattr_names ino).length)) ∧
    (0 < size → size < (listxattr_names ino).length →
      op_listxattr ino size = .error ERANGE) ∧
    (0 < size → (listxattr_names ino).length ≤ size →
      op_listxattr ino size = .ok (.buf (listxattr_names ino))) := by
  refine ⟨?_, ?_, ?_, ?_, ?_⟩
  · intro h
    simp only [listxattr_names, if_pos h]
  · intro h
    simp [listxattr_names, h]
  · intro h
    simp [op_listxattr, h]
  · intro hpos hlt
    have hsz : size ≠ 0 := by omega
    have hge : ¬ (listxattr_names ino).length ≤ size := by omega
    simp [op_listxattr, hsz, hge]
  · intro hpos hge
    have hsz : size ≠ 0 := by omega
    simp [op_listxattr, hsz, hge]

/-- C4 witness: concrete sizes — the root list is 72 bytes and a
non-root list 22 bytes; a 10-byte buffer on the root inode yields
`ERANGE`; a 100-byte buffer receives the list. -/
theorem c4_listxattr_amended_witness :
    op_listxattr FUSE_ROOT_ID 0 = .ok (.xattr_size (listxattr_names FUSE_ROOT_ID).length) ∧
    op_listxattr 5 0 = .ok (.xattr_size (listxattr_names 5).length) ∧
    op_listxattr FUSE_ROOT_ID 10 = .error ERANGE ∧
    op_listxattr FUSE_ROOT_ID 100 = .ok (.buf (listxattr_names FUSE_ROOT_ID)) := by
  refine ⟨?_, ?_, ?_, ?_⟩
  · exact (c4_listxattr_amended FUSE_ROOT_ID 0).2.2.1 rfl
  · exact (c4_listxattr_amended 5 0).2.2.1 rfl
  · exact (c4_listxattr_amended FUSE_ROOT_ID 10).2.2.2.1 (by decide) (by decide)
  · exact (c4_listxattr_amended FUSE_ROOT_ID 100).2.2.2.2 (by decide) (by decide)

/-! ## `op_read` (dwarfs_main.cpp lines 640-669)

The open handler stored the inode number in `fi->fh`; `op_read` checks
`FUSE_ROOT_ID + fi->fh != ino` before delegating to
`filesystem_v2::readv`.  The scatter-gather reply is a list of iovec
segments (byte lists); `readv` is the opaque collaborator, passed as a
function. -/

def op_read (fh ino size off : Nat)
    (readv : Nat → Nat → Nat → Except Nat (List (List Nat))) :
    Except Nat (List (List Nat)) :=
  if FUSE_ROOT_ID + fh ≠ ino then .error EIO
  else readv ino size off

/-- C5. A file handle that does not correspond to the requested inode
(`FUSE_ROOT_ID + fh ≠ ino`) makes `op_read` fail with the bad-handle
error (surfaced as errno `EIO`), for every possible `readv`
collaborator — so no data read is performed. -/
theorem c5_read_bad_handle (fh ino size off : Nat)
    (h : FUSE_ROOT_ID + fh ≠ ino) :
    ∀ readv, op_read fh ino size off readv = .error EIO := by
  intro readv
  simp [op_read, h]

/-- C5 witness: handle 5 with inode 3 fails with `EIO` even though the
underlying `readv` would have returned data. -/
theorem c5_read_bad_handle_witness :
    op_read 5 3 4096 0 (fun _ _ _ => .ok [[104, 105]]) = .error EIO :=
  c5_read_bad_handle 5 3 4096 0 (by decide) _

/-! ## Cache TTLs in `op_lookup` and `op_getattr` (lines 356-393, 419-438)

Both replies advertise `std::numeric_limits<double>::max()` as the
attribute/entry timeout.  That constant is the rational
`(2^53 - 1) * 2^971`; timeouts are modelled as rationals and finite
binary64 values as `M * 2^e / 2^1074` with `|M| ≤ 2^53 - 1` and
`e ≤ 2045` (i.e. `M * 2^E` with `-1074 ≤ E ≤ 971`). -/

def kDoubleMax : ℚ := (2 ^ 53 - 1) * 2 ^ 971

def FiniteDouble (q : ℚ) : Prop :=
  ∃ (M : ℤ) (e : Nat), |M| ≤ 2 ^ 53 - 1 ∧ e ≤ 2045 ∧ q = (M : ℚ) * 2 ^ e / 2 ^ 1074

/-- The `fuse_entry_param` fields `op_lookup` fills (lines 376-384). -/
structure fuse_entry_param where
  ino : Nat
  generation : Nat
  attr_timeout : ℚ
  entry_timeout : ℚ

def op_lookup_entry (attr_ino : Nat) : fuse_entry_param :=
  { ino := attr_ino, generation := 1,
    attr_timeout := kDoubleMax, entry_timeout := kDoubleMax }

/-- The timeout `op_getattr` passes to `fuse_reply_attr` (line 434). -/
def op_getattr_attr_timeout : ℚ := kDoubleMax

theorem kDoubleMax_finite : FiniteDouble kDoubleMax := by
  refine ⟨2 ^ 53 - 1, 2045, by norm_num, le_refl _, ?_⟩
  have h : (2 : ℚ) ^ 2045 = 2 ^ 971 * 2 ^ 1074 := by
    rw [← pow_add]
  rw [h, ← mul_assoc, mul_div_assoc, div_self (by positivity), mul_one]
  unfold kDoubleMax
  push_cast
  norm_num

/-- C6. Every successful lookup reply advertises `kDoubleMax` for both
the attribute and entry TTL, `op_getattr` advertises the same
attribute TTL, and `kDoubleMax` is the longest permissible value: it
is itself a finite double and every finite double is at most
`kDoubleMax`. -/
theorem c6_ttl_max (attr_ino : Nat) :
    (op_lookup_entry attr_ino).attr_timeout = kDoubleMax ∧
    (op_lookup_entry attr_ino).entry_timeout = kDoubleMax ∧
    op_getattr_attr_timeout = kDoubleMax ∧
    FiniteDouble kDoubleMax ∧
    ∀ q : ℚ, FiniteDouble q → q ≤ kDoubleMax := by
  refine ⟨rfl, rfl, rfl, kDoubleMax_finite, ?_⟩
  rintro q ⟨M, e, hM, he, rfl⟩
  rcases le_or_lt (M : ℚ) 0 with hM0 | hM0
  · have hq : (M : ℚ) * 2 ^ e / 2 ^ 1074 ≤ 0 := by
      apply div_nonpos_of_nonpos_of_nonneg
      · exact mul_nonpos_of_nonpos_of_nonneg hM0 (by positivity)
      · positivity
    calc (M : ℚ) * 2 ^ e / 2 ^ 1074 ≤ 0 := hq
      _ ≤ kDoubleMax := by unfold kDoubleMax; positivity
  · have hMle : (M : ℚ) ≤ 2 ^ 53 - 1 := by
      have := (abs_le.mp hM).2
      calc (M : ℚ) ≤ ((2 ^ 53 - 1 : ℤ) : ℚ) := by exact_mod_cast this
        _ = 2 ^ 53 - 1 := by push_cast; ring
    have hele : (2 : ℚ) ^ e ≤ 2 ^ 2045 := by
      apply pow_le_pow_right₀ (by norm_num) he
    have hnum : (M : ℚ) * 2 ^ e ≤ (2 ^ 53 - 1) * 2 ^ 2045 := by
      apply mul_le_mul hMle hele (by positivity) (by norm_num)
    have h2045 : (2 : ℚ) ^ 2045 = 2 ^ 971 * 2 ^ 1074 := by rw [← pow_add]
    calc (M : ℚ) * 2 ^ e / 2 ^ 1074
        ≤ (2 ^ 53 - 1) * 2 ^ 2045 / 2 ^ 1074 := by
          exact (div_le_div_iff_of_pos_right (by positivity)).mpr hnum
      _ = kDoubleMax := by
          rw [h2045, ← mul_assoc, mul_div_assoc, div_self (by positivity), mul_one]
          rfl

/-- C6 witness: `kDoubleMax` itself is a finite double, and applying
the bound to it gives `kDoubleMax ≤ kDoubleMax`. -/
theorem c6_ttl_max_witness : kDoubleMax ≤ kDoubleMax :=
  (c6_ttl_max 1).2.2.2.2 kDoubleMax (c6_ttl_max 1).2.2.2.1

/-! ## Option parsing (dwarfs_main.cpp lines 143-186, 249-254, 1448-1499)

Each `-o` option arrives as an optional string; the string parsers
(`parse_size_with_unit`, `folly::to`, `parse_time_with_unit`) are
opaque collaborators, so a raw option is embedded as the already
parsed value when the string was present.  `configure` mirrors the
assignment block of `dwarfs_main`, including the two mount-time abort
paths and the `options` struct initializers for the tidy timings. -/

def kDefaultBlockSize : Nat := 512 <<< 10
def kDefaultSeqDetectorThreshold : Nat := 4

inductive cache_tidy_strategy where
  | NONE
  | EXPIRY_TIME
  | BLOCK_SWAPPED_OUT
deriving DecidableEq, Repr

/-- `cache_tidy_strategy_map` (lines 249-254). -/
def cache_tidy_strategy_map (s : String) : Option cache_tidy_strategy :=
  if s = "none" then some .NONE
  else if s = "time" then some .EXPIRY_TIME
  else if s = "swap" then some .BLOCK_SWAPPED_OUT
  else none

structure raw_options where
  cachesize : Option Nat
  blocksize : Option Nat
  readahead : Option Nat
  workers : Option Nat
  decratio : Option ℚ
  tidy_strategy : Option String
  tidy_interval_ms : Option Nat
  tidy_max_age_ms : Option Nat
  seq_detector : Option Nat

structure driver_config where
  cachesize : Nat
  blocksize : Nat
  readahead : Nat
  workers : Nat
  decompress_ratio : ℚ
  tidy_strategy : cache_tidy_strategy
  tidy_interval_ms : Nat
  tidy_max_age_ms : Nat
  seq_detector_threshold : Nat
deriving DecidableEq, Repr

/-- The tidy-strategy block (lines 1463-1482): the struct initializers
give 5 min / 10 min (lines 179-180), overridden only when a strategy
option is present and valid; an unknown strategy name aborts. -/
def configure_tidy (r : raw_options) :
    Except (Nat × String) (cache_tidy_strategy × Nat × Nat) :=
  match r.tidy_strategy with
  | none => .ok (.NONE, 300000, 600000)
  | some s =>
    match cache_tidy_strategy_map s with
    | some strat =>
      .ok (strat, r.tidy_interval_ms.getD 300000, r.tidy_max_age_ms.getD 600000)
    | none =>
      .error (1, "error: no such cache tidy strategy: " ++ s ++ "\n")

/-- The option-processing block of `dwarfs_main` (lines 1448-1499):
returns the configuration, or exit status 1 with the error text
printed to `iol.err`. -/
def configure (r : raw_options) : Except (Nat × String) driver_config :=
  match configure_tidy r with
  | .error e => .error e
  | .ok (strat, interval, max_age) =>
    let ratio := r.decratio.getD (4 / 5)
    if ratio < 0 ∨ ratio > 1 then
      .error (1, "error: decratio must be between 0.0 and 1.0\n")
    else
      .ok { cachesize := r.cachesize.getD (512 <<< 20),
            blocksize := r.blocksize.getD kDefaultBlockSize,
            readahead := r.readahead.getD 0,
            workers := r.workers.getD 2,
            decompress_ratio := ratio,
            tidy_strategy := strat,
            tidy_interval_ms := interval,
            tidy_max_age_ms := max_age,
            seq_detector_threshold := r.seq_detector.getD kDefaultSeqDetectorThreshold }

/-- `dwarfs_main` after option processing: on success the filesystem is
loaded; on a configuration error the driver exits with the status
before `load_filesystem` runs (the result does not depend on `load`). -/
def dwarfs_main_model {α : Type} (r : raw_options) (load : driver_config → α) :
    Except (Nat × String) α :=
  match configure r with
  | .error e => .error e
  | .ok cfg => .ok (load cfg)

/-- C7. Whenever a mount option string is absent, the configured value
is the documented default: cache size 512 MiB, block size 512 KiB,
readahead 0, workers 2, decompress ratio 0.8, tidy interval 5 min,
tidy max age 10 min, sequential detector threshold 4. -/
theorem c7_option_defaults (r : raw_options) (cfg : driver_config)
    (h : configure r = .ok cfg) :
    (r.cachesize = none → cfg.cachesize = 512 * 2 ^ 20) ∧
    (r.blocksize = none → cfg.blocksize = 512 * 2 ^ 10) ∧
    (r.readahead = none → cfg.readahead = 0) ∧
    (r.workers = none → cfg.workers = 2) ∧
    (r.decratio = none → cfg.decompress_ratio = 4 / 5) ∧
    (r.tidy_interval_ms = none → cfg.tidy_interval_ms = 5 * 60 * 1000) ∧
    (r.tidy_max_age_ms = none → cfg.tidy_max_age_ms = 10 * 60 * 1000) ∧
    (r.seq_detector = none → cfg.seq_detector_threshold = 4) := by
  have htidy : ∀ strat interval max_age,
      configure_tidy r = .ok (strat, interval, max_age) →
      (r.tidy_interval_ms = none → interval = 300000) ∧
      (r.tidy_max_age_ms = none → max_age = 600000) := by
    intro strat interval max_age ht
    unfold configure_tidy at ht
    split at ht
    · rw [Except.ok.injEq] at ht
      refine ⟨fun _ => ?_, fun _ => ?_⟩
      · have := congrArg (fun p => p.2.1) ht
        simpa using this.symm
      · have := congrArg (fun p => p.2.2) ht
        simpa using this.symm
    · split at ht
      · rw [Except.ok.injEq] at ht
        refine ⟨fun habs => ?_, fun habs => ?_⟩
        · have := congrArg (fun p => p.2.1) ht
          simpa [habs] using this.symm
        · have := congrArg (fun p => p.2.2) ht
          simpa [habs] using this.symm
      · exact absurd ht (by simp)
  unfold configure at h
  rcases ht : configure_tidy r with e | ⟨strat, interval, max_age⟩ <;> rw [ht] at h
  · exact absurd h (by simp)
  · simp only [] at h
    split at h
    · exact absurd h (by simp)
    · rw [Except.ok.injEq] at h
      subst h
      obtain ⟨hi, hm⟩ := htidy strat interval max_age ht
      refine ⟨?_, ?_, ?_, ?_, ?_, ?_, ?_, ?_⟩ <;> intro habs <;>
        simp [habs, hi, hm, kDefaultBlockSize, kDefaultSeqDetectorThreshold]

/-- C7 witness: with every option absent, `configure` succeeds and each
field equals its documented default. -/
theorem c7_option_defaults_witness :
    configure ⟨none, none, none, none, none, none, none, none, none⟩ =
      .ok { cachesize := 512 * 2 ^ 20, blocksize := 512 * 2 ^ 10, readahead := 0,
            workers := 2, decompress_ratio := 4 / 5,
            tidy_strategy := .NONE, tidy_interval_ms := 5 * 60 * 1000,
            tidy_max_age_ms := 10 * 60 * 1000, seq_detector_threshold := 4 } ∧
    ∀ cfg, configure ⟨none, none, none, none, none, none, none, none, none⟩ = .ok cfg →
      cfg.cachesize = 512 * 2 ^ 20 := by
  constructor
  · show (if (4 : ℚ) / 5 < 0 ∨ (4 : ℚ) / 5 > 1 then _ else _) = _
    rw [if_neg (by norm_num)]
    norm_num [Option.getD, kDefaultBlockSize, kDefaultSeqDetectorThreshold,
      Nat.shiftLeft_eq]
  · intro cfg h
    exact (c7_option_defaults ⟨none, none, none, none, none, none, none, none, none⟩ cfg h).1 rfl

/-- C8. A decompress ratio outside `[0,1]` or a tidy strategy name
other than `none`/`time`/`swap` aborts the mount: the driver prints an
`error:` line and exits with status 1, and `load_filesystem` never
runs (the outcome is the same for every `load` continuation). -/
theorem c8_mount_abort (r : raw_options)
    (h : (∃ s, r.tidy_strategy = some s ∧ cache_tidy_strategy_map s = none) ∨
         (∃ q, r.decratio = some q ∧ (q < 0 ∨ q > 1))) :
    ∀ {α : Type} (load : driver_config → α),
      ∃ msg, dwarfs_main_model r load = .error (1, msg) := by
  intro α load
  rcases h with ⟨s, hs, hm⟩ | ⟨q, hq, hout⟩
  · refine ⟨"error: no such cache tidy strategy: " ++ s ++ "\n", ?_⟩
    simp only [dwarfs_main_model, configure, configure_tidy, hs, hm]
  · rcases hs : r.tidy_strategy with _ | s
    · refine ⟨"error: decratio must be between 0.0 and 1.0\n", ?_⟩
      simp only [dwarfs_main_model, configure, configure_tidy, hs, hq]
      simp [Option.getD, hout]
    · rcases hm : cache_tidy_strategy_map s with _ | strat
      · refine ⟨"error: no such cache tidy strategy: " ++ s ++ "\n", ?_⟩
        simp only [dwarfs_main_model, configure, configure_tidy, hs, hm]
      · refine ⟨"error: decratio must be between 0.0 and 1.0\n", ?_⟩
        simp only [dwarfs_main_model, configure, configure_tidy, hs, hm, hq]
        simp [Option.getD, hout]

/-- C8 witness: `tidy_strategy=lru` aborts with status 1, as does
`decratio=1.5`, for a concrete `load` continuation. -/
theorem c8_mount_abort_witness :
    (∃ msg, dwarfs_main_model
      ⟨none, none, none, none, none, some "lru", none, none, none⟩
      (fun _ => (0 : Nat)) = .error (1, msg)) ∧
    (∃ msg, dwarfs_main_model
      ⟨none, none, none, none, some (3 / 2), none, none, none, none⟩
      (fun _ => (0 : Nat)) = .error (1, msg)) := by
  constructor
  · exact c8_mount_abort _ (.inl ⟨"lru", rfl, by decide⟩) _
  · exact c8_mount_abort _ (.inr ⟨3 / 2, rfl, .inr (by norm_num)⟩) _

/-! ## Nilsimsa similarity (include/dwarfs/nilsimsa.h lines 31-42)

`DWARFS_NILSIMSA_SIMILARITY` sums the popcounts of the XOR of the four
64-bit hash words and yields `255 - bits` as a signed int.  A hash is
embedded as `Fin 4 → Nat` with each word below `2^64`. -/

def popcount (n : Nat) : Nat :=
  if h : n = 0 then 0
  else n % 2 + popcount (n / 2)
decreasing_by exact Nat.div_lt_self (Nat.pos_of_ne_zero h) (by norm_num)

def nilsimsa_bits (a b : Fin 4 → Nat) : Nat :=
  popcount (a 0 ^^^ b 0) + popcount (a 1 ^^^ b 1) +
  popcount (a 2 ^^^ b 2) + popcount (a 3 ^^^ b 3)

def nilsimsa_similarity (a b : Fin 4 → Nat) : Int :=
  255 - (nilsimsa_bits a b : Int)

theorem popcount_zero : popcount 0 = 0 := by
  unfold popcount
  rfl

theorem popcount_le {k n : Nat} (h : n < 2 ^ k) : popcount n ≤ k := by
  induction k generalizing n with
  | zero =>
    interval_cases n
    simp [popcount_zero]
  | succ k ih =>
    by_cases h0 : n = 0
    · simp [h0, popcount_zero]
    · rw [popcount, dif_neg h0]
      have hdiv : n / 2 < 2 ^ k := by
        rw [pow_succ] at h
        omega
      have := ih hdiv
      have := Nat.mod_lt n (show 0 < 2 by norm_num)
      omega

theorem popcount_eq_iff_allones {k n : Nat} (h : n < 2 ^ k) :
    popcount n = k ↔ n = 2 ^ k - 1 := by
  induction k generalizing n with
  | zero =>
    interval_cases n
    simp [popcount_zero]
  | succ k ih =>
    have hpow : (0 : Nat) < 2 ^ k := Nat.pos_pow_of_pos k (by norm_num)
    by_cases h0 : n = 0
    · subst h0
      rw [popcount_zero]
      constructor
      · omega
      · intro hc
        rw [pow_succ] at hc
        omega
    · rw [popcount, dif_neg h0]
      have hdiv : n / 2 < 2 ^ k := by
        rw [pow_succ] at h
        omega
      have hle := popcount_le hdiv
      have hmod : n % 2 < 2 := Nat.mod_lt n (by norm_num)
      have hdm := Nat.div_add_mod n 2
      rw [pow_succ]
      constructor
      · intro heq
        have h1 : n % 2 = 1 ∧ popcount (n / 2) = k := by omega
        have h2 := (ih hdiv).mp h1.2
        omega
      · intro heq
        have h1 : n % 2 = 1 ∧ n / 2 = 2 ^ k - 1 := by omega
        have h2 := (ih hdiv).mpr h1.2
        omega

/-- C9. Over 256-bit hashes (four words `< 2^64`): the Nilsimsa score
of a hash with itself is 255; the score is symmetric; it lies in
`[-1, 255]`; and it is negative exactly when all 256 bits differ,
i.e. every XOR word is all-ones. -/
theorem c9_nilsimsa_score (a b : Fin 4 → Nat)
    (ha : ∀ i, a i < 2 ^ 64) (hb : ∀ i, b i < 2 ^ 64) :
    nilsimsa_similarity a a = 255 ∧
    nilsimsa_similarity a b = nilsimsa_similarity b a ∧
    (-1 ≤ nilsimsa_similarity a b ∧ nilsimsa_similarity a b ≤ 255) ∧
    (nilsimsa_similarity a b < 0 ↔ ∀ i, a i ^^^ b i = 2 ^ 64 - 1) := by
  have hword : ∀ i, a i ^^^ b i < 2 ^ 64 :=
    fun i => Nat.xor_lt_two_pow (ha i) (hb i)
  have hpc : ∀ i, popcount (a i ^^^ b i) ≤ 64 := fun i => popcount_le (hword i)
  have hbits : nilsimsa_bits a b ≤ 256 := by
    have h0 := hpc 0
    have h1 := hpc 1
    have h2 := hpc 2
    have h3 := hpc 3
    unfold nilsimsa_bits
    omega
  refine ⟨?_, ?_, ?_, ?_⟩
  · unfold nilsimsa_similarity nilsimsa_bits
    simp [Nat.xor_self, popcount_zero]
  · unfold nilsimsa_similarity nilsimsa_bits
    rw [Nat.xor_comm (a 0), Nat.xor_comm (a 1), Nat.xor_comm (a 2), Nat.xor_comm (a 3)]
  · unfold nilsimsa_similarity
    omega
  · unfold nilsimsa_similarity
    constructor
    · intro hneg
      have hall : nilsimsa_bits a b = 256 := by omega
      intro i
      have heach : popcount (a i ^^^ b i) = 64 := by
        have h0 := hpc 0
        have h1 := hpc 1
        have h2 := hpc 2
        have h3 := hpc 3
        unfold nilsimsa_bits at hall
        fin_cases i
        · show popcount (a 0 ^^^ b 0) = 64
          omega
        · show popcount (a 1 ^^^ b 1) = 64
          omega
        · show popcount (a 2 ^^^ b 2) = 64
          omega
        · show popcount (a 3 ^^^ b 3) = 64
          omega
      exact (popcount_eq_iff_allones (hword i)).mp heach
    · intro hall
      have heach : ∀ i, popcount (a i ^^^ b i) = 64 :=
        fun i => (popcount_eq_iff_allones (hword i)).mpr (hall i)
      have h0 := heach 0
      have h1 := heach 1
      have h2 := heach 2
      have h3 := heach 3
      unfold nilsimsa_bits
      omega

/-- C9 witness: at the all-zero hashes, self-similarity is 255, and at
the complementary pair `(0, 2^64-1)` per word the score is `-1`. -/
theorem c9_nilsimsa_score_witness :
    nilsimsa_similarity (fun _ => 0) (fun _ => 0) = 255 ∧
    nilsimsa_similarity (fun _ => 0) (fun _ => 2 ^ 64 - 1) < 0 := by
  constructor
  · exact (c9_nilsimsa_score (fun _ => 0) (fun _ => 0)
      (fun _ => by norm_num) (fun _ => by norm_num)).1
  · exact (c9_nilsimsa_score (fun _ => 0) (fun _ => 2 ^ 64 - 1)
      (fun _ => by norm_num) (fun _ => by norm_num)).2.2.2.mpr
      (fun i => by simp)

/-! ## Rice block encoder (ricepp/include/ricepp/detail/encode.h)

`encode_block` works on `k`-bit unsigned pixels (`k = kPixelBits`);
`traits.read` is the pixel byte-swap hook, embedded as the function
`read`.  The bitstream writer is embedded as the list of
`(value, bit_count)` fields passed to it, in order: `write_bits(v, n)`
records `(v, n)`, `write_bit(1)` records `(1, 1)` and
`write_bit(0, top)` records `(0, top)`. -/

/-- `std::countr_zero` (used for `kFsBits`); the all-zero case returns
the full 64-bit width. -/
def countr_zero (n : Nat) : Nat :=
  if h : n = 0 then 64
  else if n % 2 = 1 then 0
  else 1 + countr_zero (n / 2)
decreasing_by exact Nat.div_lt_self (Nat.pos_of_ne_zero h) (by norm_num)

/-- `std::countl_zero` on a `uint64_t`: 64 minus the bit width. -/
def countl_zero64 (n : Nat) : Nat :=
  64 - (if n = 0 then 0 else Nat.log2 n + 1)

/-- One step of the delta loop (encode.h lines 105-111): the `k`-bit
wrap-around difference `pixel - last`, zig-zag mapped
(`diff & kPixelMsb ? ~(diff << 1) : (diff << 1)`, truncated to `k`
bits). -/
def zigzag_delta (k : Nat) (pixel last : Nat) : Nat :=
  let diff := (pixel % 2 ^ k + (2 ^ k - last % 2 ^ k)) % 2 ^ k
  if diff &&& 2 ^ (k - 1) ≠ 0 then 2 ^ k - 1 - (diff <<< 1) % 2 ^ k
  else (diff <<< 1) % 2 ^ k

/-- The delta-accumulation loop (lines 103-113): returns the delta
array, the delta sum, and the final `last` value. -/
def encode_scan (k : Nat) (read : Nat → Nat) :
    List Nat → Nat → List Nat × Nat × Nat
  | [], last => ([], 0, last)
  | x :: xs, last =>
    let pixel := read x
    let d := zigzag_delta k pixel last
    let rest := encode_scan k read xs pixel
    (d :: rest.1, d + rest.2.1, rest.2.2)

/-- `bits_for_fs` inside `compute_best_split` (lines 40-47). -/
def bits_for_fs (k : Nat) (delta : List Nat) (size fs : Nat) : Nat :=
  let mask := ((2 ^ k - 1) <<< fs) % 2 ^ k
  let bits := (delta.map (fun d => d &&& mask)).sum
  size * (fs + 1) + bits >>> fs

/-- The hill-descent loop of `compute_best_split` (lines 70-79):
`dirUp` selects the +1 or the -1 direction; the fuel bounds the walk, which moves
monotonically and stays inside `(0, FsMax)`. -/
def split_descend (bitsfn : Nat → Nat) (kFsMax : Nat) :
    Nat → Nat → Nat → Bool → Nat × Nat
  | 0, cand, bits, _ => (cand, bits)
  | fuel + 1, cand, bits, dirUp =>
    if 0 < cand ∧ cand < kFsMax then
      let next := if dirUp then cand + 1 else cand - 1
      let tmp := bitsfn next
      if bits < tmp then (cand, bits)
      else split_descend bitsfn kFsMax fuel next tmp dirUp
    else (cand, bits)

/-- `compute_best_split` (lines 36-82): pick a starting split position
from the mean delta, compare it with its successor, then walk in the
improving direction. -/
def compute_best_split (kFsMax k : Nat) (delta : List Nat) (size sum : Nat) :
    Nat × Nat :=
  let start_fs := 64 - min 64 (countl_zero64 (sum / size) + 2)
  let bits0 := bits_for_fs k delta size start_fs
  let bits1 := bits_for_fs k delta size (start_fs + 1)
  if bits1 ≤ bits0 then
    if bits0 ≠ bits1 then
      split_descend (bits_for_fs k delta size) kFsMax (kFsMax + 1) (start_fs + 1) bits1 true
    else (start_fs + 1, bits1)
  else
    if bits0 ≠ bits1 then
      split_descend (bits_for_fs k delta size) kFsMax (kFsMax + 1) start_fs bits0 false
    else (start_fs, bits0)

/-- `encode_block` (lines 84-145): returns the emitted bit fields and
the updated `last_value`. -/
def encode_block (k : Nat) (read : Nat → Nat) (block : List Nat)
    (last_value : Nat) : List (Nat × Nat) × Nat :=
  let kFsBits := countr_zero k
  let kFsMax := k - 2
  let scanned := encode_scan k read block last_value
  let delta := scanned.1
  let sum := scanned.2.1
  let out :=
    if sum = 0 then
      [(0, kFsBits)]
    else
      let fsbits := compute_best_split kFsMax k delta block.length sum
      if kFsMax ≤ fsbits.1 ∨ k * block.length ≤ fsbits.2 then
        (kFsMax + 1, kFsBits) :: block.map (fun p => (p, k))
      else
        (fsbits.1 + 1, kFsBits) ::
          delta.foldr (fun d acc =>
            (if 0 < d >>> fsbits.1 then [((0 : Nat), d >>> fsbits.1)] else []) ++
            [(1, 1), (d, fsbits.1)] ++ acc) []
  (out, scanned.2.2)

theorem zigzag_delta_self (k v : Nat) : zigzag_delta k v v = 0 := by
  unfold zigzag_delta
  have hpos : (0 : Nat) < 2 ^ k := Nat.pos_pow_of_pos k (by norm_num)
  have hle : v % 2 ^ k ≤ 2 ^ k := le_of_lt (Nat.mod_lt v hpos)
  have hdiff : (v % 2 ^ k + (2 ^ k - v % 2 ^ k)) % 2 ^ k = 0 := by
    rw [Nat.add_sub_cancel' hle, Nat.mod_self]
  simp [hdiff, Nat.zero_and, Nat.zero_shiftLeft]

theorem encode_scan_sum_zero (k : Nat) (read : Nat → Nat) :
    ∀ (block : List Nat) (lv : Nat), (∀ x ∈ block, read x = lv) →
      (encode_scan k read block lv).2.1 = 0 := by
  intro block
  induction block with
  | nil => intro lv _; rfl
  | cons x xs ih =>
    intro lv hall
    have hx : read x = lv := hall x (by simp)
    have hxs : ∀ y ∈ xs, read y = read x := by
      intro y hy
      rw [hx]
      exact hall y (by simp [hy])
    show zigzag_delta k (read x) lv + (encode_scan k read xs (read x)).2.1 = 0
    rw [hx, zigzag_delta_self,
      ih lv (fun y hy => hall y (List.mem_cons_of_mem x hy))]

theorem encode_scan_last (k : Nat) (read : Nat → Nat) :
    ∀ (block : List Nat) (lv : Nat),
      (encode_scan k read block lv).2.2 = (block.map read).getLastD lv := by
  intro block
  induction block with
  | nil => intro lv; rfl
  | cons x xs ih =>
    intro lv
    show (encode_scan k read xs (read x)).2.2 = ((x :: xs).map read).getLastD lv
    rw [ih (read x), List.map_cons, List.getLastD_cons]

theorem getLastD_concat {α : Type} (l : List α) (a d : α) :
    (l ++ [a]).getLastD d = a := by
  induction l generalizing d with
  | nil => rfl
  | cons x xs ih =>
    rw [List.cons_append, List.getLastD_cons]
    exact ih x

/-- C10. For every block whose pixels all equal the running
`last_value` (so every zig-zag delta is zero and the delta sum is
zero), `encode_block` emits exactly one field: `kFsBits` bits of value
0, and nothing else; and for every block, zero deltas or not, the
updated `last_value` is the (read) value of the block's final pixel. -/
theorem c10_encode_block (k : Nat) (read : Nat → Nat) (block : List Nat)
    (last_value : Nat) :
    ((∀ x ∈ block, read x = last_value) →
      (encode_block k read block last_value).1 = [(0, countr_zero k)]) ∧
    (∀ (xs : List Nat) (x : Nat), block = xs ++ [x] →
      (encode_block k read block last_value).2 = read x) := by
  constructor
  · intro hall
    have hsum := encode_scan_sum_zero k read block last_value hall
    simp [encode_block, hsum]
  · rintro xs x rfl
    show (encode_scan k read (xs ++ [x]) last_value).2.2 = read x
    rw [encode_scan_last, List.map_append, List.map_singleton,
      getLastD_concat]

/-- C10 witness: a constant 16-bit block `[7,7,7]` with `last_value = 7`
emits exactly one 4-bit zero field (`kFsBits = countr_zero 16 = 4`),
and the block `[5,6]` leaves `last_value = 6`. -/
theorem c10_encode_block_witness :
    (encode_block 16 (fun p => p) [7, 7, 7] 7).1 = [(0, 4)] ∧
    (encode_block 16 (fun p => p) [5, 6] 7).2 = 6 := by
  constructor
  · have h16 : countr_zero 16 = 4 := by
      rw [countr_zero]; norm_num
      rw [countr_zero]; norm_num
      rw [countr_zero]; norm_num
      rw [countr_zero]; norm_num
      rw [countr_zero]; norm_num
    have h := (c10_encode_block 16 (fun p => p) [7, 7, 7] 7).1 (by decide)
    rw [h, h16]
  · exact (c10_encode_block 16 (fun p => p) [5, 6] 7).2 [5] 6 rfl

end DwarfsSpec
